import Mathlib

/-!
Shallow embedding of `utils.py` from the `rsaton` repository: vocabulary
construction (`build_vocab`), fixed-length id-sequence loading
(`load_dataset`), the batching iterator (`DatasetIterater`) and the
pretrained-embedding extraction of the `__main__` block.

Python strings are modelled as `List Char`; Python dicts (which preserve
insertion order) are modelled as association lists with insert-or-overwrite
update; fallible steps (blank-line skip is separated out by the callers,
malformed lines and runtime errors) are modelled with `Option`.
-/

namespace Rsaton

/-- Python strings modelled as lists of characters. -/
abbrev Token := List Char

/-- The whitespace characters removed by Python `str.strip()`. -/
def isPySpace (c : Char) : Bool :=
  c = ' ' || c = '\t' || c = '\n' || c = '\r' || c = '\x0b' || c = '\x0c'

/-- Python `s.strip()`: remove leading and trailing whitespace. -/
def pyStrip (s : Token) : Token :=
  ((s.dropWhile isPySpace).reverse.dropWhile isPySpace).reverse

/-- Python `s.split(sep)` for a one-character separator `c`: split on every
occurrence of `c`, keeping empty fields. -/
def splitOnChar (c : Char) : Token → List Token
  | [] => [[]]
  | x :: xs =>
    match splitOnChar c xs with
    | [] => [[]]
    | h :: t => if x = c then [] :: h :: t else (x :: h) :: t

/-- The reserved unknown-word token, `UNK = "<UNK>"` in `utils.py`. -/
def UNK : Token := "<UNK>".toList

/-- The reserved padding token, `PAD = "<PAD>"` in `utils.py`. -/
def PAD : Token := "<PAD>".toList

/-- Python `d.get(k)` / `d[k]` on an association list: first matching key. -/
def alookup : List (Token × Nat) → Token → Option Nat
  | [], _ => none
  | (k', v) :: t, k => if k = k' then some v else alookup t k

/-- Python `d[k] = v`: overwrite the entry in place when the key is present,
append it otherwise (Python dicts preserve insertion order). -/
def dictSet : List (Token × Nat) → Token → Nat → List (Token × Nat)
  | [], k, v => [(k, v)]
  | (k', v') :: t, k, v => if k = k' then (k, v) :: t else (k', v') :: dictSet t k v

/-- The tokens counted for one corpus line in `build_vocab` (and used by
`load_dataset`): strip the line, skip it when blank, keep only the text
before the first tab, and tokenize. -/
def lineTokens (tok : Token → List Token) (line : Token) : List Token :=
  let lin := pyStrip line
  if lin = [] then [] else tok ((splitOnChar '\t' lin).headD [])

/-- One step of frequency counting: `vocab_dic[word] = vocab_dic.get(word, 0) + 1`. -/
def incr (d : List (Token × Nat)) (w : Token) : List (Token × Nat) :=
  dictSet d w ((alookup d w).getD 0 + 1)

/-- The frequency dictionary accumulated by the counting loop of `build_vocab`. -/
def build_vocab_counts (tok : Token → List Token) (lines : List Token) :
    List (Token × Nat) :=
  lines.foldl (fun d line => (lineTokens tok line).foldl incr d) []

/-- Descending-frequency comparison used by
`sorted(..., key=lambda x: x[1], reverse=True)`. -/
def freqDesc : (Token × Nat) → (Token × Nat) → Prop := fun a b => b.2 ≤ a.2

instance : DecidableRel freqDesc := fun a b => Nat.decLe b.2 a.2

instance : IsTotal (Token × Nat) freqDesc := ⟨fun a b => Nat.le_total b.2 a.2⟩

instance : IsTrans (Token × Nat) freqDesc := ⟨fun _ _ _ h1 h2 => le_trans h2 h1⟩

/-- `vocab_list` of `build_vocab`: entries with frequency at least `min_freq`,
stably sorted by descending frequency (Python's `sorted` is stable, as is
insertion sort), truncated to the first `max_size` entries. -/
def vocab_list (tok : Token → List Token) (lines : List Token)
    (max_size min_freq : Nat) : List (Token × Nat) :=
  (List.insertionSort freqDesc
    ((build_vocab_counts tok lines).filter (fun p => min_freq ≤ p.2))).take max_size

/-- `{word_count[0]: idx for idx, word_count in enumerate(vocab_list)}`. -/
def idAssign : List (Token × Nat) → Nat → List (Token × Nat)
  | [], _ => []
  | p :: t, i => (p.1, i) :: idAssign t (i + 1)

/-- `build_vocab(file_path, tokenizer, max_size, min_freq)` with the file given
as its list of lines: the enumerated truncated frequency list, then
`vocab_dic.update({UNK: len(vocab_dic), PAD: len(vocab_dic) + 1})`. -/
def build_vocab (tok : Token → List Token) (lines : List Token)
    (max_size min_freq : Nat) : List (Token × Nat) :=
  let d := idAssign (vocab_list tok lines max_size min_freq) 0
  dictSet (dictSet d UNK d.length) PAD (d.length + 1)

/-- The character-level tokenizer `lambda x: [y for y in x]` of `build_dataset`. -/
def charTok : Token → List Token := fun x => x.map (fun y => [y])

/-- The word-level tokenizer `lambda x: x.split(' ')` of `build_dataset`. -/
def wordTok : Token → List Token := splitOnChar ' '

/-- Accumulate the decimal digits of a numeral. -/
def digitsToNat (ds : List Char) : Nat :=
  ds.foldl (fun n c => n * 10 + (c.toNat - 48)) 0

/-- Python `int(label)` on a stripped decimal string: optional sign followed by
at least one digit; `none` models the `ValueError` on malformed input. -/
def pyInt (s : Token) : Option Int :=
  match pyStrip s with
  | '+' :: ds =>
    if !ds.isEmpty && ds.all Char.isDigit then some (digitsToNat ds) else none
  | '-' :: ds =>
    if !ds.isEmpty && ds.all Char.isDigit then some (-(digitsToNat ds : Int)) else none
  | ds =>
    if !ds.isEmpty && ds.all Char.isDigit then some (digitsToNat ds) else none

/-- `vocab.get(word, vocab.get(UNK))`: a word in the vocabulary maps to its own
id, any other word to the id of `UNK` (which is `none` only when `UNK` itself
is missing from the vocabulary). -/
def wordToId (vocab : List (Token × Nat)) (w : Token) : Option Nat :=
  match alookup vocab w with
  | some i => some i
  | none => alookup vocab UNK

/-- The padding/truncation step of `load_dataset`: returns the adjusted token
list and the recorded `seq_len`.  `if pad_size:` is Python truthiness, so a
zero `pad_size` leaves the tokens unchanged. -/
def pad_tokens (padSize : Nat) (t : List Token) : List Token × Nat :=
  if padSize ≠ 0 then
    if t.length < padSize then
      (t ++ List.replicate (padSize - t.length) PAD, t.length)
    else (t.take padSize, padSize)
  else (t, t.length)

/-- The text before the first tab of the stripped line, `lin.split('\t')[0]`. -/
def tabContent (line : Token) : Token := (splitOnChar '\t' (pyStrip line)).headD []

/-- One iteration of the `load_dataset` loop: `none` models both the
`continue` on a blank line and the runtime errors on a line without exactly
one tab or with a non-integer label; otherwise the produced entry
`(words_line, int(label), seq_len)`. -/
def load_dataset_line (vocab : List (Token × Nat)) (tok : Token → List Token)
    (padSize : Nat) (line : Token) : Option (List (Option Nat) × Int × Nat) :=
  let lin := pyStrip line
  if lin = [] then none
  else
    match splitOnChar '\t' lin with
    | [content, label] =>
      match pyInt label with
      | some lab =>
        let p := pad_tokens padSize (tok content)
        some (p.1.map (wordToId vocab), lab, p.2)
      | none => none
    | _ => none

/-- The mutable state of a `DatasetIterater` object. -/
structure IterState (α : Type) where
  batch_size : Nat
  batches : List α
  n_batches : Nat
  residue : Bool
  index : Nat
deriving DecidableEq

/-- `DatasetIterater.__init__`: `none` models the `ZeroDivisionError` raised by
`len(batches) // batch_size` when `batch_size` is zero and by
`len(batches) % self.n_batches` when `n_batches` is zero. -/
def DatasetIterater.init {α : Type} (batches : List α) (batch_size : Nat) :
    Option (IterState α) :=
  if batch_size = 0 then none
  else
    let n := batches.length / batch_size
    if n = 0 then none
    else some ⟨batch_size, batches, n, batches.length % n != 0, 0⟩

/-- `DatasetIterater.__next__`: the yielded batch (`none` models
`StopIteration`) together with the updated state.  Slices are modelled on the
underlying element lists; `_to_tensor` only repackages a batch. -/
def DatasetIterater.next {α : Type} (s : IterState α) :
    Option (List α) × IterState α :=
  if s.residue = true ∧ s.index = s.n_batches then
    (some (s.batches.drop (s.index * s.batch_size)), { s with index := s.index + 1 })
  else if s.n_batches ≤ s.index then
    (none, { s with index := 0 })
  else
    (some ((s.batches.drop (s.index * s.batch_size)).take s.batch_size),
      { s with index := s.index + 1 })

/-- `DatasetIterater.__len__`. -/
def DatasetIterater.len {α : Type} (s : IterState α) : Nat :=
  if s.residue = true then s.n_batches + 1 else s.n_batches

/-- Drive the iterator for at most `fuel` calls of `__next__`, collecting the
yielded batches and stopping at the first `StopIteration`, like a Python
`for` loop does. -/
def runIter {α : Type} : IterState α → Nat → List (List α) × IterState α
  | s, 0 => ([], s)
  | s, fuel + 1 =>
    match DatasetIterater.next s with
    | (some b, s2) =>
      let r := runIter s2 fuel
      (b :: r.1, r.2)
    | (none, s2) => ([], s2)

/-- The batches a full iteration yields from a state whose index is
`s.index`: the remaining full slices, then the residue slice when
`residue` is set. -/
def yieldFrom {α : Type} (s : IterState α) : List (List α) :=
  ((List.range' s.index (s.n_batches - s.index)).map
      (fun i => (s.batches.drop (i * s.batch_size)).take s.batch_size)) ++
    (if s.residue = true then [s.batches.drop (s.n_batches * s.batch_size)] else [])

/-- `lin[0]` for `lin = line.strip().split(' ')` in the embedding-extraction
block: the first space-separated field of the stripped line. -/
def firstField (line : Token) : Token := (splitOnChar ' ' (pyStrip line)).headD []

/-- `[float(x) for x in lin[1:301]]`, with float parsing kept abstract as a
function `parse` into an arbitrary scalar type. -/
def embOf {F : Type} (parse : Token → F) (line : Token) : List F :=
  (((splitOnChar ' ' (pyStrip line)).drop 1).take 300).map parse

/-- One line of the embedding-extraction loop: when the first field is a
vocabulary word, overwrite the row at its id; `none` models the runtime
errors when the parsed vector does not have exactly 300 components or the id
is not a valid row index. -/
def extract_step {F : Type} (word_to_id : List (Token × Nat)) (parse : Token → F)
    (M : List (List F)) (line : Token) : Option (List (List F)) :=
  match alookup word_to_id (firstField line) with
  | none => some M
  | some idx =>
    if (embOf parse line).length = 300 ∧ idx < M.length then
      some (M.set idx (embOf parse line))
    else none

/-- `np.random.rand(len(word_to_id), emb_dim)` with `emb_dim = 300`, the
random draws kept abstract as a function `initF` of row and column. -/
def initEmb {F : Type} (initF : Nat → Nat → F) (n : Nat) : List (List F) :=
  (List.range n).map (fun i => (List.range 300).map (initF i))

/-- The embedding-extraction loop of the `__main__` block, over the lines of
the pretrained-vector file. -/
def extract_embeddings {F : Type} (word_to_id : List (Token × Nat))
    (parse : Token → F) (initF : Nat → Nat → F) (lines : List Token) :
    Option (List (List F)) :=
  lines.foldlM (extract_step word_to_id parse) (initEmb initF word_to_id.length)

/-! ### Association-list lemmas -/

theorem alookup_eq_none_iff (d : List (Token × Nat)) (k : Token) :
    alookup d k = none ↔ k ∉ d.map Prod.fst := by
  induction d with
  | nil => simp [alookup]
  | cons p t ih =>
    obtain ⟨k', v⟩ := p
    by_cases h : k = k' <;> simp [alookup, h, ih]

theorem alookup_mem {d : List (Token × Nat)} {k : Token} {v : Nat}
    (h : alookup d k = some v) : (k, v) ∈ d := by
  induction d with
  | nil => simp [alookup] at h
  | cons p t ih =>
    obtain ⟨k', v'⟩ := p
    by_cases hk : k = k'
    · subst hk
      simp [alookup] at h
      simp [h]
    · simp [alookup, hk] at h
      exact List.mem_cons_of_mem _ (ih h)

theorem alookup_eq_of_mem {d : List (Token × Nat)}
    (hnd : (d.map Prod.fst).Nodup) {k : Token} {v : Nat} (hm : (k, v) ∈ d) :
    alookup d k = some v := by
  induction d with
  | nil => simp at hm
  | cons p t ih =>
    obtain ⟨k', v'⟩ := p
    rw [List.map_cons, List.nodup_cons] at hnd
    rcases List.mem_cons.mp hm with h | h
    · cases h
      simp [alookup]
    · have hk : k ≠ k' := by
        intro he
        apply hnd.1
        rw [← he]
        exact List.mem_map.mpr ⟨(k, v), h, rfl⟩
      simp only [alookup, if_neg hk]
      exact ih hnd.2 h

theorem alookup_dictSet_self (d : List (Token × Nat)) (k : Token) (v : Nat) :
    alookup (dictSet d k v) k = some v := by
  induction d with
  | nil => simp [dictSet, alookup]
  | cons p t ih =>
    obtain ⟨k', v'⟩ := p
    by_cases h : k = k' <;> simp [dictSet, alookup, h, ih]

theorem alookup_dictSet_ne (d : List (Token × Nat)) {k k' : Token} (v : Nat)
    (h : k' ≠ k) : alookup (dictSet d k v) k' = alookup d k' := by
  induction d with
  | nil => simp [dictSet, alookup, h]
  | cons p t ih =>
    obtain ⟨k'', v''⟩ := p
    by_cases h2 : k = k''
    · subst h2
      simp [dictSet, alookup, h]
    · simp only [dictSet, if_neg h2]
      by_cases h3 : k' = k'' <;> simp [alookup, h3, ih]

theorem dictSet_of_not_mem (d : List (Token × Nat)) {k : Token} (v : Nat)
    (h : k ∉ d.map Prod.fst) : dictSet d k v = d ++ [(k, v)] := by
  induction d with
  | nil => simp [dictSet]
  | cons p t ih =>
    obtain ⟨k', v'⟩ := p
    rw [List.map_cons] at h
    have h1 : k ≠ k' := fun he => h (by simp [he])
    have h2 : k ∉ t.map Prod.fst := fun hm => h (List.mem_cons_of_mem _ hm)
    simp [dictSet, h1, ih h2]

theorem alookup_append_left {d d2 : List (Token × Nat)} {k : Token} {v : Nat}
    (h : alookup d k = some v) : alookup (d ++ d2) k = some v := by
  induction d with
  | nil => simp [alookup] at h
  | cons p t ih =>
    obtain ⟨k', v'⟩ := p
    by_cases hk : k = k' <;> simp_all [alookup]

theorem alookup_append_right {d : List (Token × Nat)} (d2 : List (Token × Nat))
    {k : Token} (h : alookup d k = none) : alookup (d ++ d2) k = alookup d2 k := by
  induction d with
  | nil => simp
  | cons p t ih =>
    obtain ⟨k', v'⟩ := p
    by_cases hk : k = k' <;> simp_all [alookup]

theorem mem_fst_dictSet (d : List (Token × Nat)) (k : Token) (v : Nat)
    (x : Token) : x ∈ (dictSet d k v).map Prod.fst ↔ x ∈ d.map Prod.fst ∨ x = k := by
  induction d with
  | nil => simp [dictSet]
  | cons p t ih =>
    obtain ⟨k', v'⟩ := p
    by_cases h : k = k'
    · subst h
      simp [dictSet]
      tauto
    · simp [dictSet, h, ih]
      tauto

theorem nodup_fst_dictSet {d : List (Token × Nat)} (k : Token) (v : Nat)
    (hnd : (d.map Prod.fst).Nodup) : ((dictSet d k v).map Prod.fst).Nodup := by
  induction d with
  | nil => simp [dictSet]
  | cons p t ih =>
    obtain ⟨k', v'⟩ := p
    rw [List.map_cons, List.nodup_cons] at hnd
    by_cases h : k = k'
    · subst h
      have he : dictSet ((k, v') :: t) k v = (k, v) :: t := by simp [dictSet]
      rw [he, List.map_cons, List.nodup_cons]
      exact ⟨hnd.1, hnd.2⟩
    · have he : dictSet ((k', v') :: t) k v = (k', v') :: dictSet t k v := by
        simp [dictSet, h]
      rw [he, List.map_cons, List.nodup_cons]
      refine ⟨?_, ih hnd.2⟩
      intro hmem
      rcases (mem_fst_dictSet t k v k').mp hmem with h2 | h2
      · exact hnd.1 h2
      · exact h h2.symm

/-! ### Frequency-counting lemmas -/

theorem alookup_incr_self (d : List (Token × Nat)) (w : Token) :
    alookup (incr d w) w = some ((alookup d w).getD 0 + 1) :=
  alookup_dictSet_self d w _

theorem alookup_incr_ne (d : List (Token × Nat)) {w w' : Token} (h : w' ≠ w) :
    alookup (incr d w) w' = alookup d w' :=
  alookup_dictSet_ne d _ h

theorem alookup_foldl_incr (ts : List Token) (d : List (Token × Nat)) (w : Token) :
    alookup (ts.foldl incr d) w =
      if ts.count w = 0 then alookup d w
      else some ((alookup d w).getD 0 + ts.count w) := by
  induction ts generalizing d with
  | nil => simp
  | cons t ts ih =>
    rw [List.foldl_cons, ih]
    by_cases h : t = w
    · subst h
      rw [List.count_cons_self, alookup_incr_self]
      have hne : ts.count t + 1 ≠ 0 := Nat.succ_ne_zero _
      rw [if_neg hne]
      by_cases hc : ts.count t = 0
      · simp [hc]
      · rw [if_neg hc]
        congr 1
        simp
        omega
    · rw [List.count_cons_of_ne (fun he => h he.symm),
        alookup_incr_ne d (fun he => h he.symm)]

theorem nodup_fst_foldl_incr (ts : List Token) (d : List (Token × Nat))
    (hnd : (d.map Prod.fst).Nodup) : ((ts.foldl incr d).map Prod.fst).Nodup := by
  induction ts generalizing d with
  | nil => exact hnd
  | cons t ts ih => exact ih _ (nodup_fst_dictSet _ _ hnd)

theorem build_vocab_counts_eq_join (tok : Token → List Token) (lines : List Token) :
    build_vocab_counts tok lines = ((lines.map (lineTokens tok)).flatten).foldl incr [] := by
  suffices h : ∀ d : List (Token × Nat),
      lines.foldl (fun d line => (lineTokens tok line).foldl incr d) d =
        ((lines.map (lineTokens tok)).flatten).foldl incr d from h []
  induction lines with
  | nil => intro d; rfl
  | cons l ls ih =>
    intro d
    rw [List.foldl_cons, ih, List.map_cons, List.flatten_cons, List.foldl_append]

theorem nodup_fst_build_vocab_counts (tok : Token → List Token) (lines : List Token) :
    ((build_vocab_counts tok lines).map Prod.fst).Nodup := by
  rw [build_vocab_counts_eq_join]
  exact nodup_fst_foldl_incr _ _ (by simp)

theorem alookup_build_vocab_counts (tok : Token → List Token) (lines : List Token)
    (w : Token) :
    alookup (build_vocab_counts tok lines) w =
      if ((lines.map (lineTokens tok)).flatten).count w = 0 then none
      else some (((lines.map (lineTokens tok)).flatten).count w) := by
  rw [build_vocab_counts_eq_join, alookup_foldl_incr]
  simp [alookup]

/-! ### Splitting lemmas -/

theorem splitOnChar_ne_nil (c : Char) (l : Token) : splitOnChar c l ≠ [] := by
  cases l with
  | nil => simp [splitOnChar]
  | cons x xs =>
    rw [splitOnChar]
    rcases h : splitOnChar c xs with _ | ⟨h1, t1⟩
    · simp
    · by_cases hx : x = c <;> simp [hx]

theorem splitOnChar_append_cons (c : Char) (a b : Token) (ha : c ∉ a) :
    splitOnChar c (a ++ c :: b) = a :: splitOnChar c b := by
  induction a with
  | nil =>
    rw [List.nil_append, splitOnChar]
    rcases h : splitOnChar c b with _ | ⟨h1, t1⟩
    · exact absurd h (splitOnChar_ne_nil c b)
    · simp
  | cons x a' ih =>
    have hx : x ≠ c := fun he => ha (he ▸ List.mem_cons_self x a')
    have ha' : c ∉ a' := fun hm => ha (List.mem_cons_of_mem _ hm)
    rw [List.cons_append, splitOnChar, ih ha']
    simp [hx]

/-- Claim C7: `build_vocab` counts token frequencies only over the text before
the first tab of each non-blank stripped line: (i) the recorded frequency of
every word is exactly its number of occurrences among the per-line token
lists `lineTokens`; (ii) a blank line contributes no tokens; (iii) removing a
blank line from the corpus leaves the frequency dictionary unchanged; (iv) on
an already-stripped line, the tokens are computed from exactly the text
before the first tab, so the fields after it contribute nothing. -/
theorem claim7_counting_scope (tok : Token → List Token) :
    (∀ (lines : List Token) (w : Token),
      alookup (build_vocab_counts tok lines) w =
        if ((lines.map (lineTokens tok)).flatten).count w = 0 then none
        else some (((lines.map (lineTokens tok)).flatten).count w)) ∧
    (∀ line : Token, pyStrip line = [] → lineTokens tok line = []) ∧
    (∀ (l1 l2 : List Token) (b : Token), pyStrip b = [] →
      build_vocab_counts tok (l1 ++ b :: l2) = build_vocab_counts tok (l1 ++ l2)) ∧
    (∀ content label : Token,
      pyStrip (content ++ '\t' :: label) = content ++ '\t' :: label →
      '\t' ∉ content →
      lineTokens tok (content ++ '\t' :: label) = tok content) := by
  have hblank : ∀ line : Token, pyStrip line = [] → lineTokens tok line = [] := by
    intro line h
    simp [lineTokens, h]
  refine ⟨alookup_build_vocab_counts tok, hblank, ?_, ?_⟩
  · intro l1 l2 b hb
    unfold build_vocab_counts
    rw [List.foldl_append, List.foldl_append, List.foldl_cons, hblank b hb,
      List.foldl_nil]
  · intro content label hs ht
    have hne : content ++ '\t' :: label ≠ [] := by
      cases content <;> simp
    rw [lineTokens]
    simp only [hs, if_neg hne]
    rw [splitOnChar_append_cons '\t' content label ht]
    rfl

/-- Witness for C7: each part of `claim7_counting_scope` instantiated on a
concrete corpus with the character-level tokenizer. -/
theorem claim7_witness :
    (alookup (build_vocab_counts charTok ["ab\t1".toList, "b c\t2".toList]) ['b'] =
      if (((["ab\t1".toList, "b c\t2".toList]).map (lineTokens charTok)).flatten).count ['b'] = 0
        then none
        else some ((((["ab\t1".toList, "b c\t2".toList]).map (lineTokens charTok)).flatten).count ['b'])) ∧
    lineTokens charTok "  ".toList = [] ∧
    build_vocab_counts charTok (["ab\t1".toList] ++ "  ".toList :: ["b c\t2".toList]) =
      build_vocab_counts charTok (["ab\t1".toList] ++ ["b c\t2".toList]) ∧
    lineTokens charTok ("ab".toList ++ '\t' :: "1".toList) = charTok "ab".toList := by
  refine ⟨(claim7_counting_scope charTok).1 _ _, ?_, ?_, ?_⟩
  · exact (claim7_counting_scope charTok).2.1 _ (by decide)
  · exact (claim7_counting_scope charTok).2.2.1 _ _ _ (by decide)
  · exact (claim7_counting_scope charTok).2.2.2 _ _ (by decide) (by decide)

/-! ### Vocabulary-construction lemmas -/

theorem idAssign_length (L : List (Token × Nat)) (k : Nat) :
    (idAssign L k).length = L.length := by
  induction L generalizing k with
  | nil => rfl
  | cons p t ih => simp [idAssign, ih]

theorem idAssign_map_fst (L : List (Token × Nat)) (k : Nat) :
    (idAssign L k).map Prod.fst = L.map Prod.fst := by
  induction L generalizing k with
  | nil => rfl
  | cons p t ih => simp [idAssign, ih]

theorem idAssign_map_snd (L : List (Token × Nat)) (k : Nat) :
    (idAssign L k).map Prod.snd = List.range' k L.length := by
  induction L generalizing k with
  | nil => rfl
  | cons p t ih => simp [idAssign, ih, List.range']

theorem alookup_idAssign (L : List (Token × Nat))
    (hnd : (L.map Prod.fst).Nodup) (k : Nat) (i : Nat) (h : i < L.length) :
    alookup (idAssign L k) (L.get ⟨i, h⟩).1 = some (k + i) := by
  induction L generalizing k i with
  | nil => simp at h
  | cons p t ih =>
    rw [List.map_cons, List.nodup_cons] at hnd
    cases i with
    | zero => simp [idAssign, alookup]
    | succ j =>
      have hj : j < t.length := by simpa using h
      have hget : ((p :: t).get ⟨j + 1, h⟩) = t.get ⟨j, hj⟩ := rfl
      rw [hget, idAssign]
      have hne : (t.get ⟨j, hj⟩).1 ≠ p.1 := by
        intro he
        apply hnd.1
        rw [← he]
        exact List.mem_map.mpr ⟨t.get ⟨j, hj⟩, List.get_mem t j hj, rfl⟩
      rw [alookup, if_neg hne, ih hnd.2 (k + 1) j hj]
      congr 1
      omega

theorem nodup_fst_vocab_list (tok : Token → List Token) (lines : List Token)
    (max_size min_freq : Nat) :
    ((vocab_list tok lines max_size min_freq).map Prod.fst).Nodup := by
  have h1 : ((build_vocab_counts tok lines).filter
      (fun p => min_freq ≤ p.2) |>.map Prod.fst).Nodup :=
    ((nodup_fst_build_vocab_counts tok lines).sublist
      (List.Sublist.map Prod.fst (List.filter_sublist _)))
  have h2 : ((List.insertionSort freqDesc ((build_vocab_counts tok lines).filter
      (fun p => min_freq ≤ p.2))).map Prod.fst).Nodup := by
    refine (List.Perm.nodup_iff ?_).mpr h1
    exact List.Perm.map Prod.fst (List.perm_insertionSort _ _)
  exact h2.sublist (List.Sublist.map Prod.fst (List.take_sublist _ _))

theorem vocab_list_length_le (tok : Token → List Token) (lines : List Token)
    (max_size min_freq : Nat) :
    (vocab_list tok lines max_size min_freq).length ≤ max_size := by
  unfold vocab_list
  exact (List.length_take _ _).le.trans (Nat.min_le_left _ _)

theorem vocab_list_sorted (tok : Token → List Token) (lines : List Token)
    (max_size min_freq : Nat) :
    List.Sorted freqDesc (vocab_list tok lines max_size min_freq) :=
  (List.sorted_insertionSort freqDesc _).sublist (List.take_sublist _ _)

theorem vocab_list_mem (tok : Token → List Token) (lines : List Token)
    (max_size min_freq : Nat) {p : Token × Nat}
    (hp : p ∈ vocab_list tok lines max_size min_freq) :
    min_freq ≤ p.2 ∧ alookup (build_vocab_counts tok lines) p.1 = some p.2 := by
  have h1 : p ∈ List.insertionSort freqDesc ((build_vocab_counts tok lines).filter
      (fun p => min_freq ≤ p.2)) := (List.take_sublist _ _).mem hp
  have h2 : p ∈ (build_vocab_counts tok lines).filter (fun p => min_freq ≤ p.2) :=
    (List.perm_insertionSort _ _).mem_iff.mp h1
  obtain ⟨h3, h4⟩ := List.mem_filter.mp h2
  exact ⟨by simpa using h4,
    alookup_eq_of_mem (nodup_fst_build_vocab_counts tok lines) h3⟩

theorem build_vocab_eq (tok : Token → List Token) (lines : List Token)
    (max_size min_freq : Nat)
    (hU : UNK ∉ (vocab_list tok lines max_size min_freq).map Prod.fst)
    (hP : PAD ∉ (vocab_list tok lines max_size min_freq).map Prod.fst) :
    build_vocab tok lines max_size min_freq =
      idAssign (vocab_list tok lines max_size min_freq) 0 ++
        [(UNK, (vocab_list tok lines max_size min_freq).length),
         (PAD, (vocab_list tok lines max_size min_freq).length + 1)] := by
  have hrfl : build_vocab tok lines max_size min_freq =
      dictSet (dictSet (idAssign (vocab_list tok lines max_size min_freq) 0) UNK
        (idAssign (vocab_list tok lines max_size min_freq) 0).length) PAD
        ((idAssign (vocab_list tok lines max_size min_freq) 0).length + 1) := rfl
  rw [hrfl, idAssign_length]
  have hU2 : UNK ∉ (idAssign (vocab_list tok lines max_size min_freq) 0).map Prod.fst := by
    rw [idAssign_map_fst]; exact hU
  rw [dictSet_of_not_mem _ _ hU2]
  have hP2 : PAD ∉ ((idAssign (vocab_list tok lines max_size min_freq) 0) ++
      [(UNK, (vocab_list tok lines max_size min_freq).length)]).map Prod.fst := by
    rw [List.map_append, List.mem_append]
    rintro (h | h)
    · exact hP (by rwa [idAssign_map_fst] at h)
    · simp at h
      exact absurd h (by decide)
  rw [dictSet_of_not_mem _ _ hP2, List.append_assoc]
  rfl

instance : IsRefl (Token × Nat) freqDesc := ⟨fun a => le_refl a.2⟩

/-- Claim C2 (amended): provided the reserved tokens `<UNK>` and `<PAD>` do
not occur among the selected corpus tokens, `build_vocab` contains at most
`max_size` corpus tokens — those of the truncated frequency list, each with
frequency at least `min_freq` equal to its corpus frequency, assigned ids
`0, 1, 2, ...` in descending frequency order — plus `<UNK>` and `<PAD>`
mapped to the two largest ids (the length of the truncated list and that
length plus one), for at most `max_size + 2` entries and nothing else. -/
theorem claim2_vocab_structure (tok : Token → List Token) (lines : List Token)
    (max_size min_freq : Nat)
    (hU : UNK ∉ (vocab_list tok lines max_size min_freq).map Prod.fst)
    (hP : PAD ∉ (vocab_list tok lines max_size min_freq).map Prod.fst) :
    (build_vocab tok lines max_size min_freq).length =
        (vocab_list tok lines max_size min_freq).length + 2 ∧
    (vocab_list tok lines max_size min_freq).length ≤ max_size ∧
    (∀ (i : Nat) (h : i < (vocab_list tok lines max_size min_freq).length),
      alookup (build_vocab tok lines max_size min_freq)
          ((vocab_list tok lines max_size min_freq).get ⟨i, h⟩).1 = some i) ∧
    (∀ (i j : Nat) (hi : i < (vocab_list tok lines max_size min_freq).length)
        (hj : j < (vocab_list tok lines max_size min_freq).length), i ≤ j →
      ((vocab_list tok lines max_size min_freq).get ⟨j, hj⟩).2 ≤
        ((vocab_list tok lines max_size min_freq).get ⟨i, hi⟩).2) ∧
    (∀ p ∈ vocab_list tok lines max_size min_freq,
      min_freq ≤ p.2 ∧ alookup (build_vocab_counts tok lines) p.1 = some p.2) ∧
    alookup (build_vocab tok lines max_size min_freq) UNK =
      some (vocab_list tok lines max_size min_freq).length ∧
    alookup (build_vocab tok lines max_size min_freq) PAD =
      some ((vocab_list tok lines max_size min_freq).length + 1) ∧
    (∀ w : Token, w ∉ (vocab_list tok lines max_size min_freq).map Prod.fst →
      w ≠ UNK → w ≠ PAD →
      alookup (build_vocab tok lines max_size min_freq) w = none) := by
  have hnd := nodup_fst_vocab_list tok lines max_size min_freq
  have heq := build_vocab_eq tok lines max_size min_freq hU hP
  have hdU : alookup (idAssign (vocab_list tok lines max_size min_freq) 0) UNK = none := by
    rw [alookup_eq_none_iff, idAssign_map_fst]; exact hU
  have hdP : alookup (idAssign (vocab_list tok lines max_size min_freq) 0) PAD = none := by
    rw [alookup_eq_none_iff, idAssign_map_fst]; exact hP
  refine ⟨?_, vocab_list_length_le tok lines max_size min_freq, ?_, ?_, ?_, ?_, ?_, ?_⟩
  · rw [heq, List.length_append, idAssign_length]
    rfl
  · intro i h
    rw [heq]
    have := alookup_idAssign (vocab_list tok lines max_size min_freq) hnd 0 i h
    rw [Nat.zero_add] at this
    exact alookup_append_left this
  · intro i j hi hj hij
    exact (vocab_list_sorted tok lines max_size min_freq).rel_get_of_le
      (show (⟨i, hi⟩ : Fin _) ≤ ⟨j, hj⟩ from hij)
  · exact fun p hp => vocab_list_mem tok lines max_size min_freq hp
  · rw [heq, alookup_append_right _ hdU, alookup, if_pos rfl]
  · rw [heq, alookup_append_right _ hdP, alookup,
      if_neg (show PAD ≠ UNK by decide), alookup, if_pos rfl]
  · intro w hw hwU hwP
    have hdw : alookup (idAssign (vocab_list tok lines max_size min_freq) 0) w = none := by
      rw [alookup_eq_none_iff, idAssign_map_fst]; exact hw
    rw [heq, alookup_append_right _ hdw, alookup, if_neg hwU, alookup,
      if_neg hwP]
    rfl

/-- Counterexample to Claim C2 as stated: with the word-level tokenizer and a
corpus in which the literal token `<UNK>` occurs, the token at index 1 of the
truncated frequency list is `<UNK>` itself, but the dict update overwrites
its rank id, so it is mapped to 2 instead of the id 1 the claim assigns. -/
theorem claim2_cx :
    vocab_list wordTok ["<UNK> a a\t0".toList] 10 1 = [("a".toList, 2), (UNK, 1)] ∧
    alookup (build_vocab wordTok ["<UNK> a a\t0".toList] 10 1) UNK = some 2 ∧
    ¬ alookup (build_vocab wordTok ["<UNK> a a\t0".toList] 10 1) UNK = some 1 := by
  refine ⟨by decide, by decide, by decide⟩

/-- Witness for C2: the amended theorem applied to a concrete two-line corpus
with the character-level tokenizer; the reserved tokens do not occur there. -/
theorem claim2_witness :
    UNK ∉ (vocab_list charTok ["ab\t1".toList, "b\t0".toList] 5 1).map Prod.fst ∧
    PAD ∉ (vocab_list charTok ["ab\t1".toList, "b\t0".toList] 5 1).map Prod.fst ∧
    ((build_vocab charTok ["ab\t1".toList, "b\t0".toList] 5 1).length =
        (vocab_list charTok ["ab\t1".toList, "b\t0".toList] 5 1).length + 2 ∧
      (vocab_list charTok ["ab\t1".toList, "b\t0".toList] 5 1).length ≤ 5 ∧
      (∀ (i : Nat) (h : i < (vocab_list charTok ["ab\t1".toList, "b\t0".toList] 5 1).length),
        alookup (build_vocab charTok ["ab\t1".toList, "b\t0".toList] 5 1)
            ((vocab_list charTok ["ab\t1".toList, "b\t0".toList] 5 1).get ⟨i, h⟩).1 = some i) ∧
      (∀ (i j : Nat) (hi : i < (vocab_list charTok ["ab\t1".toList, "b\t0".toList] 5 1).length)
          (hj : j < (vocab_list charTok ["ab\t1".toList, "b\t0".toList] 5 1).length), i ≤ j →
        ((vocab_list charTok ["ab\t1".toList, "b\t0".toList] 5 1).get ⟨j, hj⟩).2 ≤
          ((vocab_list charTok ["ab\t1".toList, "b\t0".toList] 5 1).get ⟨i, hi⟩).2) ∧
      (∀ p ∈ vocab_list charTok ["ab\t1".toList, "b\t0".toList] 5 1,
        1 ≤ p.2 ∧ alookup (build_vocab_counts charTok ["ab\t1".toList, "b\t0".toList]) p.1 = some p.2) ∧
      alookup (build_vocab charTok ["ab\t1".toList, "b\t0".toList] 5 1) UNK =
        some (vocab_list charTok ["ab\t1".toList, "b\t0".toList] 5 1).length ∧
      alookup (build_vocab charTok ["ab\t1".toList, "b\t0".toList] 5 1) PAD =
        some ((vocab_list charTok ["ab\t1".toList, "b\t0".toList] 5 1).length + 1) ∧
      (∀ w : Token, w ∉ (vocab_list charTok ["ab\t1".toList, "b\t0".toList] 5 1).map Prod.fst →
        w ≠ UNK → w ≠ PAD →
        alookup (build_vocab charTok ["ab\t1".toList, "b\t0".toList] 5 1) w = none)) :=
  ⟨by decide, by decide,
    claim2_vocab_structure charTok ["ab\t1".toList, "b\t0".toList] 5 1
      (by decide) (by decide)⟩

/-! ### `load_dataset` lemmas -/

theorem load_dataset_line_eq (vocab : List (Token × Nat)) (tok : Token → List Token)
    (padSize : Nat) (line : Token) (r : List (Option Nat) × Int × Nat)
    (h : load_dataset_line vocab tok padSize line = some r) :
    r.1 = (pad_tokens padSize (tok (tabContent line))).1.map (wordToId vocab) ∧
    r.2.2 = (pad_tokens padSize (tok (tabContent line))).2 := by
  simp only [load_dataset_line] at h
  split at h
  · exact absurd h (by simp)
  · split at h
    · rename_i content label heq
      have hc : tabContent line = content := by
        rw [tabContent, heq]
        rfl
      split at h
      · obtain rfl := Option.some.inj h
        simp [hc]
      · exact absurd h (by simp)
    · exact absurd h (by simp)

/-- Claim C3: for every line accepted by `load_dataset` with a positive
`pad_size`, the produced id sequence has length exactly `pad_size` — shorter
token lists are extended with `PAD` before id conversion and longer ones are
truncated to their first `pad_size` tokens — and the recorded `seq_len` is
the original token count when that is below `pad_size` and `pad_size`
otherwise, i.e. their minimum. -/
theorem claim3_pad_truncate (vocab : List (Token × Nat)) (tok : Token → List Token)
    (padSize : Nat) (line : Token) (r : List (Option Nat) × Int × Nat)
    (hpad : 0 < padSize)
    (h : load_dataset_line vocab tok padSize line = some r) :
    r.1.length = padSize ∧
    r.2.2 = min (tok (tabContent line)).length padSize ∧
    ((tok (tabContent line)).length < padSize →
      r.1 = ((tok (tabContent line)) ++
        List.replicate (padSize - (tok (tabContent line)).length) PAD).map
          (wordToId vocab)) ∧
    (padSize ≤ (tok (tabContent line)).length →
      r.1 = ((tok (tabContent line)).take padSize).map (wordToId vocab)) := by
  obtain ⟨h1, h2⟩ := load_dataset_line_eq vocab tok padSize line r h
  have hne : padSize ≠ 0 := Nat.pos_iff_ne_zero.mp hpad
  by_cases hlt : (tok (tabContent line)).length < padSize
  · rw [pad_tokens, if_pos hne, if_pos hlt] at h1 h2
    refine ⟨?_, ?_, fun _ => h1, fun hge => absurd hlt (Nat.not_lt.mpr hge)⟩
    · rw [h1]
      simp
      omega
    · rw [h2]
      omega
  · rw [pad_tokens, if_pos hne, if_neg hlt] at h1 h2
    rw [Nat.not_lt] at hlt
    refine ⟨?_, ?_, fun hlt2 => absurd hlt2 (Nat.not_lt.mpr hlt), fun _ => h1⟩
    · rw [h1]
      simp
      omega
    · rw [h2]
      omega

/-- Witness for C3: a concrete line, vocabulary and pad size. -/
theorem claim3_witness :
    0 < 3 ∧
    load_dataset_line [("a".toList, 0), (UNK, 1), (PAD, 2)] charTok 3 "ab\t5".toList =
      some ([some 0, some 1, some 2], 5, 2) ∧
    ([some 0, some 1, some 2] : List (Option Nat)).length = 3 ∧
    (5, 2).2 = min (charTok (tabContent "ab\t5".toList)).length 3 := by
  have hload : load_dataset_line [("a".toList, 0), (UNK, 1), (PAD, 2)] charTok 3
      "ab\t5".toList = some ([some 0, some 1, some 2], 5, 2) := by decide
  have hmain := claim3_pad_truncate [("a".toList, 0), (UNK, 1), (PAD, 2)] charTok 3
    "ab\t5".toList ([some 0, some 1, some 2], 5, 2) (by decide) hload
  exact ⟨by decide, hload, hmain.1, hmain.2.1⟩

/-- Claim C6: in the token-to-id mapping of `load_dataset`, a token present
in the vocabulary maps to its own id and any other token maps to the id of
`<UNK>`; in a produced entry, every position holding an original token is
converted by that mapping and every padding position holds the reserved id
of `<PAD>` (given that `<PAD>` is in the vocabulary, as `build_vocab`
guarantees). -/
theorem claim6_word_to_id (vocab : List (Token × Nat)) (tok : Token → List Token)
    (padSize : Nat) (line : Token) (r : List (Option Nat) × Int × Nat)
    (hPAD : PAD ∈ vocab.map Prod.fst)
    (h : load_dataset_line vocab tok padSize line = some r) :
    (∀ (w : Token) (i : Nat), alookup vocab w = some i → wordToId vocab w = some i) ∧
    (∀ w : Token, alookup vocab w = none → wordToId vocab w = alookup vocab UNK) ∧
    (∀ (i : Nat) (hi : i < (tok (tabContent line)).length), i < r.1.length →
      r.1.get? i = some (wordToId vocab ((tok (tabContent line)).get ⟨i, hi⟩))) ∧
    (∀ i : Nat, (tok (tabContent line)).length ≤ i → i < r.1.length →
      r.1.get? i = some (alookup vocab PAD)) := by
  obtain ⟨ids, lab, sl⟩ := r
  obtain ⟨hr1, _⟩ := load_dataset_line_eq vocab tok padSize line _ h
  simp only at hr1
  have hPADlook : wordToId vocab PAD = alookup vocab PAD := by
    rcases hsome : alookup vocab PAD with _ | pv
    · exact absurd ((alookup_eq_none_iff vocab PAD).mp hsome) (by simpa using hPAD)
    · rw [wordToId, hsome]
  refine ⟨?_, ?_, ?_, ?_⟩
  · intro w i hw
    rw [wordToId, hw]
  · intro w hw
    rw [wordToId, hw]
  · intro i hi hi2
    simp only at hi2 ⊢
    rw [hr1] at hi2 ⊢
    rw [List.get?_map]
    rw [List.length_map] at hi2
    unfold pad_tokens at hi2 ⊢
    by_cases hz : padSize ≠ 0
    · rw [if_pos hz] at hi2 ⊢
      by_cases hlt : (tok (tabContent line)).length < padSize
      · rw [if_pos hlt] at hi2 ⊢
        rw [List.get?_append hi, List.get?_eq_get hi]
        rfl
      · rw [if_neg hlt] at hi2 ⊢
        rw [List.length_take] at hi2
        rw [List.get?_take (by omega), List.get?_eq_get hi]
        rfl
    · rw [if_neg hz] at hi2 ⊢
      rw [List.get?_eq_get hi]
      rfl
  · intro i h1 h2
    simp only at h2 ⊢
    rw [hr1] at h2 ⊢
    rw [List.get?_map]
    rw [List.length_map] at h2
    unfold pad_tokens at h2 ⊢
    by_cases hz : padSize ≠ 0
    · rw [if_pos hz] at h2 ⊢
      by_cases hlt : (tok (tabContent line)).length < padSize
      · rw [if_pos hlt] at h2 ⊢
        rw [List.get?_append_right h1]
        have hrep : i - (tok (tabContent line)).length <
            padSize - (tok (tabContent line)).length := by
          rw [List.length_append, List.length_replicate] at h2
          omega
        rw [List.get?_eq_get (by simpa using hrep)]
        simp [hPADlook]
      · rw [if_neg hlt] at h2
        rw [Nat.not_lt] at hlt
        rw [List.length_take] at h2
        omega
    · rw [if_neg hz] at h2
      simp only at h2
      omega

/-- Witness for C6: the mapping facts and a concrete padded line whose
out-of-vocabulary token falls back to the `<UNK>` id. -/
theorem claim6_witness :
    PAD ∈ ([("a".toList, 0), (UNK, 1), (PAD, 2)].map Prod.fst) ∧
    load_dataset_line [("a".toList, 0), (UNK, 1), (PAD, 2)] charTok 4 "ax\t7".toList =
      some ([some 0, some 1, some 2, some 2], 7, 2) ∧
    (∀ i : Nat, (charTok (tabContent "ax\t7".toList)).length ≤ i →
      i < ([some 0, some 1, some 2, some 2] : List (Option Nat)).length →
      ([some 0, some 1, some 2, some 2] : List (Option Nat)).get? i =
        some (alookup [("a".toList, 0), (UNK, 1), (PAD, 2)] PAD)) := by
  have hload : load_dataset_line [("a".toList, 0), (UNK, 1), (PAD, 2)] charTok 4
      "ax\t7".toList = some ([some 0, some 1, some 2, some 2], 7, 2) := by decide
  have hmain := claim6_word_to_id [("a".toList, 0), (UNK, 1), (PAD, 2)] charTok 4
    "ax\t7".toList ([some 0, some 1, some 2, some 2], 7, 2) (by decide) hload
  exact ⟨by decide, hload, hmain.2.2.2⟩

theorem build_vocab_values_lt (tok : Token → List Token) (lines : List Token)
    (max_size min_freq : Nat)
    (hU : UNK ∉ (vocab_list tok lines max_size min_freq).map Prod.fst)
    (hP : PAD ∉ (vocab_list tok lines max_size min_freq).map Prod.fst)
    {w : Token} {v : Nat}
    (hl : alookup (build_vocab tok lines max_size min_freq) w = some v) :
    v < (build_vocab tok lines max_size min_freq).length := by
  have heq := build_vocab_eq tok lines max_size min_freq hU hP
  have hlen : (build_vocab tok lines max_size min_freq).length =
      (vocab_list tok lines max_size min_freq).length + 2 := by
    rw [heq, List.length_append, idAssign_length]
    rfl
  rw [hlen]
  have hv : v ∈ (build_vocab tok lines max_size min_freq).map Prod.snd :=
    List.mem_map.mpr ⟨(w, v), alookup_mem hl, rfl⟩
  rw [heq, List.map_append, idAssign_map_snd] at hv
  rcases List.mem_append.mp hv with h1 | h1
  · have := List.mem_range'_1.mp h1
    omega
  · simp at h1
    omega

theorem alookup_build_vocab_UNK (tok : Token → List Token) (lines : List Token)
    (max_size min_freq : Nat)
    (hU : UNK ∉ (vocab_list tok lines max_size min_freq).map Prod.fst)
    (hP : PAD ∉ (vocab_list tok lines max_size min_freq).map Prod.fst) :
    alookup (build_vocab tok lines max_size min_freq) UNK =
      some (vocab_list tok lines max_size min_freq).length := by
  have hdU : alookup (idAssign (vocab_list tok lines max_size min_freq) 0) UNK = none := by
    rw [alookup_eq_none_iff, idAssign_map_fst]; exact hU
  rw [build_vocab_eq tok lines max_size min_freq hU hP,
    alookup_append_right _ hdU, alookup, if_pos rfl]

/-- Claim C10 (amended): provided the reserved tokens `<UNK>` and `<PAD>` do
not occur among the selected corpus tokens, every entry of every id sequence
produced by `load_dataset` over a vocabulary built by `build_vocab` is a
defined id strictly below the vocabulary size, hence a valid row index into
the extracted embedding matrix of `len(word_to_id)` rows. -/
theorem claim10_id_bounds (tok : Token → List Token) (lines : List Token)
    (max_size min_freq padSize : Nat) (line : Token)
    (r : List (Option Nat) × Int × Nat)
    (hU : UNK ∉ (vocab_list tok lines max_size min_freq).map Prod.fst)
    (hP : PAD ∉ (vocab_list tok lines max_size min_freq).map Prod.fst)
    (h : load_dataset_line (build_vocab tok lines max_size min_freq) tok padSize line
        = some r) :
    ∀ x ∈ r.1, ∃ id : Nat,
      x = some id ∧ id < (build_vocab tok lines max_size min_freq).length := by
  obtain ⟨hr1, _⟩ := load_dataset_line_eq _ tok padSize line r h
  intro x hx
  rw [hr1] at hx
  obtain ⟨w, _, hw⟩ := List.mem_map.mp hx
  rcases hsome : alookup (build_vocab tok lines max_size min_freq) w with _ | v
  · refine ⟨(vocab_list tok lines max_size min_freq).length, ?_, ?_⟩
    · rw [← hw, wordToId, hsome, alookup_build_vocab_UNK tok lines max_size min_freq hU hP]
    · exact build_vocab_values_lt tok lines max_size min_freq hU hP
        (alookup_build_vocab_UNK tok lines max_size min_freq hU hP)
  · refine ⟨v, ?_, build_vocab_values_lt tok lines max_size min_freq hU hP hsome⟩
    rw [← hw, wordToId, hsome]

/-- Counterexample to Claim C10 as stated: when the corpus contains the
literal token `<UNK>`, the built vocabulary maps `<PAD>` to an id equal to
its own size, so a padding position produces the id 3 even though the
vocabulary has 3 entries — not a valid row index of the embedding matrix. -/
theorem claim10_cx :
    load_dataset_line (build_vocab wordTok ["<UNK> a a\t0".toList] 10 1) wordTok 2
        "a\t0".toList = some ([some 0, some 3], 0, 1) ∧
    (build_vocab wordTok ["<UNK> a a\t0".toList] 10 1).length = 3 ∧
    ¬ 3 < (build_vocab wordTok ["<UNK> a a\t0".toList] 10 1).length := by
  refine ⟨by decide, by decide, by decide⟩

/-- Witness for C10: a concrete corpus without reserved tokens and a loaded
line containing an out-of-vocabulary token and a padding position. -/
theorem claim10_witness :
    UNK ∉ (vocab_list charTok ["ab\t1".toList, "b\t0".toList] 5 1).map Prod.fst ∧
    PAD ∉ (vocab_list charTok ["ab\t1".toList, "b\t0".toList] 5 1).map Prod.fst ∧
    load_dataset_line (build_vocab charTok ["ab\t1".toList, "b\t0".toList] 5 1)
        charTok 3 "ac\t1".toList = some ([some 1, some 2, some 3], 1, 2) ∧
    (∀ x ∈ ([some 1, some 2, some 3] : List (Option Nat)), ∃ id : Nat,
      x = some id ∧
        id < (build_vocab charTok ["ab\t1".toList, "b\t0".toList] 5 1).length) := by
  have hload : load_dataset_line (build_vocab charTok ["ab\t1".toList, "b\t0".toList] 5 1)
      charTok 3 "ac\t1".toList = some ([some 1, some 2, some 3], 1, 2) := by decide
  exact ⟨by decide, by decide, hload,
    claim10_id_bounds charTok ["ab\t1".toList, "b\t0".toList] 5 1 3 "ac\t1".toList
      ([some 1, some 2, some 3], 1, 2) (by decide) (by decide) hload⟩

/-! ### Iterator lemmas -/

theorem init_eq {α : Type} (batches : List α) (bs : Nat) :
    DatasetIterater.init batches bs =
      if bs = 0 then none
      else if batches.length / bs = 0 then none
      else some ⟨bs, batches, batches.length / bs,
        batches.length % (batches.length / bs) != 0, 0⟩ := rfl

theorem next_residue {α : Type} (s : IterState α) (h1 : s.residue = true)
    (h2 : s.index = s.n_batches) :
    DatasetIterater.next s =
      (some (s.batches.drop (s.index * s.batch_size)), { s with index := s.index + 1 }) := by
  rw [DatasetIterater.next, if_pos ⟨h1, h2⟩]

theorem next_stop {α : Type} (s : IterState α)
    (h1 : ¬(s.residue = true ∧ s.index = s.n_batches)) (h2 : s.n_batches ≤ s.index) :
    DatasetIterater.next s = (none, { s with index := 0 }) := by
  rw [DatasetIterater.next, if_neg h1, if_pos h2]

theorem next_full {α : Type} (s : IterState α) (h2 : s.index < s.n_batches) :
    DatasetIterater.next s =
      (some ((s.batches.drop (s.index * s.batch_size)).take s.batch_size),
        { s with index := s.index + 1 }) := by
  have h1 : ¬(s.residue = true ∧ s.index = s.n_batches) := by
    rintro ⟨_, he⟩
    omega
  rw [DatasetIterater.next, if_neg h1, if_neg (by omega)]

theorem runIter_succ {α : Type} (s : IterState α) (fuel : Nat) :
    runIter s (fuel + 1) =
      match DatasetIterater.next s with
      | (some b, s2) => (b :: (runIter s2 fuel).1, (runIter s2 fuel).2)
      | (none, s2) => ([], s2) := rfl

theorem runIter_yield {α : Type} {s : IterState α} {b : List α} {s2 : IterState α}
    (h : DatasetIterater.next s = (some b, s2)) (fuel : Nat) :
    runIter s (fuel + 1) = (b :: (runIter s2 fuel).1, (runIter s2 fuel).2) := by
  rw [runIter_succ, h]

theorem runIter_stop {α : Type} {s s2 : IterState α}
    (h : DatasetIterater.next s = (none, s2)) :
    ∀ fuel : Nat, 0 < fuel → runIter s fuel = ([], s2) := by
  intro fuel hf
  cases fuel with
  | zero => omega
  | succ f => rw [runIter_succ, h]

theorem runIter_spec {α : Type} :
    ∀ (k : Nat) (s : IterState α), s.index ≤ s.n_batches → s.n_batches - s.index = k →
      runIter s (DatasetIterater.len s + 1 - s.index) =
        (yieldFrom s, { s with index := 0 }) := by
  intro k
  induction k with
  | zero =>
    intro s hle hk
    have hidx : s.index = s.n_batches := by omega
    by_cases hres : s.residue = true
    · have hlen : DatasetIterater.len s = s.n_batches + 1 := by
        rw [DatasetIterater.len, if_pos hres]
      have hnext2 : DatasetIterater.next { s with index := s.index + 1 } =
          (none, { s with index := 0 }) := by
        rw [next_stop]
        · rintro ⟨_, he⟩
          simp at he
          omega
        · simp
          omega
      have e1 : runIter s 2 =
          ((s.batches.drop (s.index * s.batch_size)) ::
              (runIter { s with index := s.index + 1 } 1).1,
            (runIter { s with index := s.index + 1 } 1).2) :=
        runIter_yield (next_residue s hres hidx) 1
      have e2 : runIter { s with index := s.index + 1 } 1 = ([], { s with index := 0 }) :=
        runIter_stop hnext2 1 Nat.one_pos
      rw [show DatasetIterater.len s + 1 - s.index = 2 by omega, e1, e2]
      rw [yieldFrom, hidx, Nat.sub_self, if_pos hres]
      simp [List.range']
    · have hlen : DatasetIterater.len s = s.n_batches := by
        rw [DatasetIterater.len, if_neg hres]
      have hnext : DatasetIterater.next s = (none, { s with index := 0 }) := by
        rw [next_stop]
        · rintro ⟨hr, _⟩
          exact hres hr
        · omega
      rw [show DatasetIterater.len s + 1 - s.index = 1 by omega,
        runIter_stop hnext 1 Nat.one_pos]
      rw [yieldFrom, hidx, Nat.sub_self, if_neg hres]
      simp [List.range']
  | succ k ih =>
    intro s hle hk
    have hidx : s.index < s.n_batches := by omega
    have hlenge : s.index ≤ DatasetIterater.len s := by
      rw [DatasetIterater.len]
      split <;> omega
    rw [show DatasetIterater.len s + 1 - s.index =
      (DatasetIterater.len s + 1 - (s.index + 1)) + 1 by omega]
    rw [runIter_yield (next_full s hidx) (DatasetIterater.len s + 1 - (s.index + 1))]
    have hlen2 : DatasetIterater.len { s with index := s.index + 1 } =
        DatasetIterater.len s := rfl
    have hih := ih { s with index := s.index + 1 } (by simp; omega) (by simp; omega)
    rw [hlen2] at hih
    simp only at hih
    rw [hih]
    have hyield : yieldFrom s =
        ((s.batches.drop (s.index * s.batch_size)).take s.batch_size) ::
          yieldFrom { s with index := s.index + 1 } := by
      rw [yieldFrom, yieldFrom]
      simp only
      rw [show s.n_batches - s.index = (s.n_batches - (s.index + 1)) + 1 by omega]
      rw [List.range']
      simp
    rw [hyield]

/-- Claim C9: a `StopIteration` resets the iterator index to 0, so from any
state produced by `__init__`, one full iteration (all yielded batches plus
the terminating `StopIteration`) returns the iterator to exactly its initial
state, and a second full iteration yields the identical batch sequence. -/
theorem claim9_reset_reiterate {α : Type} (batches : List α) (bs : Nat)
    (s0 : IterState α) (hinit : DatasetIterater.init batches bs = some s0) :
    runIter s0 (DatasetIterater.len s0 + 1) = (yieldFrom s0, s0) ∧
    runIter (runIter s0 (DatasetIterater.len s0 + 1)).2 (DatasetIterater.len s0 + 1) =
      (yieldFrom s0, s0) := by
  have hfields : s0.index = 0 := by
    rw [init_eq] at hinit
    split at hinit
    · exact absurd hinit (by simp)
    · split at hinit
      · exact absurd hinit (by simp)
      · obtain rfl := Option.some.inj hinit
        rfl
  have hS : ({ s0 with index := 0 } : IterState α) = s0 := by
    obtain ⟨a, b, c, d, e⟩ := s0
    obtain rfl : e = 0 := hfields
    rfl
  have hle : s0.index ≤ s0.n_batches := by
    rw [hfields]
    exact Nat.zero_le _
  have h1 := runIter_spec (s0.n_batches - s0.index) s0 hle rfl
  rw [hfields, Nat.sub_zero, hS] at h1
  refine ⟨h1, ?_⟩
  rw [h1]
  exact h1

/-- Witness for C9: a five-element dataset with batch size 2 (one residue
batch); the full run yields the three batches and restores the state. -/
theorem claim9_witness :
    DatasetIterater.init [0, 1, 2, 3, 4] 2 =
      some (⟨2, [0, 1, 2, 3, 4], 2, true, 0⟩ : IterState Nat) ∧
    runIter (⟨2, [0, 1, 2, 3, 4], 2, true, 0⟩ : IterState Nat)
        (DatasetIterater.len (⟨2, [0, 1, 2, 3, 4], 2, true, 0⟩ : IterState Nat) + 1) =
      (yieldFrom (⟨2, [0, 1, 2, 3, 4], 2, true, 0⟩ : IterState Nat),
        (⟨2, [0, 1, 2, 3, 4], 2, true, 0⟩ : IterState Nat)) :=
  ⟨by decide, (claim9_reset_reiterate [0, 1, 2, 3, 4] 2 _ (by decide)).1⟩

/-- Claim C1 (code evaluation at the failing input): with 12 elements and
batch size 5, `__init__` computes `n_batches = 2` and, because
`12 % 2 == 0`, leaves `residue` unset; a full iteration therefore yields
only the two full batches `[0..4]` and `[5..9]`, silently dropping the two
remaining elements instead of producing a final partial batch. -/
theorem claim1_residue_bug_eval :
    DatasetIterater.init (List.range 12) 5 =
      some (⟨5, List.range 12, 2, false, 0⟩ : IterState Nat) ∧
    (runIter (⟨5, List.range 12, 2, false, 0⟩ : IterState Nat)
        (DatasetIterater.len (⟨5, List.range 12, 2, false, 0⟩ : IterState Nat) + 1)).1 =
      [[0, 1, 2, 3, 4], [5, 6, 7, 8, 9]] ∧
    ([[0, 1, 2, 3, 4], [5, 6, 7, 8, 9]] : List (List Nat)).flatten = List.range 10 ∧
    List.range 10 ≠ List.range 12 := by
  refine ⟨by decide, by decide, by decide, by decide⟩

/-- Claim C4 (code evaluation at the failing input): with 14 elements and
batch size 6, `len()` is 2 and the iterator indeed yields 2 batches, but
`ceil(14 / 6) = 3`, so `len()` is not the claimed ceiling. -/
theorem claim4_len_bug_eval :
    DatasetIterater.init (List.range 14) 6 =
      some (⟨6, List.range 14, 2, false, 0⟩ : IterState Nat) ∧
    DatasetIterater.len (⟨6, List.range 14, 2, false, 0⟩ : IterState Nat) = 2 ∧
    (runIter (⟨6, List.range 14, 2, false, 0⟩ : IterState Nat) 3).1.length = 2 ∧
    (14 + 6 - 1) / 6 = 3 := by
  refine ⟨by decide, by decide, by decide, by decide⟩

/-- Counterexample to Claim C8 as stated: with `batch_size = 0`, the dataset
`[0]` has at least `batch_size` elements, yet construction fails (the
division `len(batches) // batch_size` itself raises). -/
theorem claim8_cx :
    (0 : Nat) ≤ ([0] : List Nat).length ∧
    DatasetIterater.init ([0] : List Nat) 0 = none := by
  refine ⟨by decide, by decide⟩

/-- Claim C8 (amended): constructing a `DatasetIterater` with a dataset
strictly smaller than `batch_size` fails with a division-by-zero error, and
for every positive `batch_size`, construction succeeds on every dataset with
at least `batch_size` elements; with `batch_size = 0` the initial division
itself is a division by zero, so construction always fails. -/
theorem claim8_init_amended {α : Type} :
    (∀ (batches : List α) (bs : Nat), batches.length < bs →
      DatasetIterater.init batches bs = none) ∧
    (∀ (batches : List α) (bs : Nat), 1 ≤ bs → bs ≤ batches.length →
      ∃ s : IterState α, DatasetIterater.init batches bs = some s) ∧
    (∀ batches : List α, DatasetIterater.init batches 0 = none) := by
  refine ⟨?_, ?_, ?_⟩
  · intro batches bs hlt
    have hbs : bs ≠ 0 := by omega
    have hdiv : batches.length / bs = 0 := Nat.div_eq_of_lt hlt
    rw [init_eq, if_neg hbs, hdiv, if_pos rfl]
  · intro batches bs h1 h2
    have hbs : bs ≠ 0 := by omega
    have hdiv : batches.length / bs ≠ 0 :=
      Nat.pos_iff_ne_zero.mp (Nat.div_pos h2 (by omega))
    rw [init_eq, if_neg hbs, if_neg hdiv]
    exact ⟨_, rfl⟩
  · intro batches
    rw [init_eq, if_pos rfl]

/-- Witness for C8: the amended theorem at concrete datasets and sizes. -/
theorem claim8_witness :
    ([7] : List Nat).length < 2 ∧
    DatasetIterater.init ([7] : List Nat) 2 = none ∧
    1 ≤ 2 ∧ 2 ≤ ([4, 5, 6] : List Nat).length ∧
    (∃ s : IterState Nat, DatasetIterater.init ([4, 5, 6] : List Nat) 2 = some s) ∧
    DatasetIterater.init ([9] : List Nat) 0 = none :=
  ⟨by decide, claim8_init_amended.1 [7] 2 (by decide), by decide, by decide,
    claim8_init_amended.2.1 [4, 5, 6] 2 (by decide) (by decide),
    claim8_init_amended.2.2 [9]⟩

/-! ### Embedding-extraction lemmas -/

theorem extract_step_length {F : Type} {V : List (Token × Nat)} {parse : Token → F}
    {M M1 : List (List F)} {l : Token} (h : extract_step V parse M l = some M1) :
    M1.length = M.length := by
  unfold extract_step at h
  split at h
  · obtain rfl := Option.some.inj h
    rfl
  · split at h
    · obtain rfl := Option.some.inj h
      simp
    · exact absurd h (by simp)

theorem extract_step_rows {F : Type} {V : List (Token × Nat)} {parse : Token → F}
    {M M1 : List (List F)} {l : Token} (h : extract_step V parse M l = some M1)
    (hrows : ∀ row ∈ M, row.length = 300) : ∀ row ∈ M1, row.length = 300 := by
  unfold extract_step at h
  split at h
  · obtain rfl := Option.some.inj h
    exact hrows
  · split at h
    · rename_i hcond
      obtain rfl := Option.some.inj h
      intro row hrow
      rcases List.mem_or_eq_of_mem_set hrow with h2 | h2
      · exact hrows row h2
      · rw [h2]
        exact hcond.1
    · exact absurd h (by simp)

theorem extract_foldlM_length {F : Type} (V : List (Token × Nat)) (parse : Token → F)
    (lines : List Token) :
    ∀ M M2 : List (List F), lines.foldlM (extract_step V parse) M = some M2 →
      M2.length = M.length := by
  induction lines with
  | nil =>
    intro M M2 h
    obtain rfl := Option.some.inj h
    rfl
  | cons l ls ih =>
    intro M M2 h
    rw [List.foldlM_cons] at h
    cases hstep : extract_step V parse M l with
    | none =>
      rw [hstep] at h
      exact absurd h (by simp)
    | some M1 =>
      rw [hstep, show (some M1 >>= fun M3 => ls.foldlM (extract_step V parse) M3) =
        ls.foldlM (extract_step V parse) M1 from rfl] at h
      rw [ih M1 M2 h, extract_step_length hstep]

theorem extract_foldlM_rows {F : Type} (V : List (Token × Nat)) (parse : Token → F)
    (lines : List Token) :
    ∀ M M2 : List (List F), lines.foldlM (extract_step V parse) M = some M2 →
      (∀ row ∈ M, row.length = 300) → ∀ row ∈ M2, row.length = 300 := by
  induction lines with
  | nil =>
    intro M M2 h hrows
    obtain rfl := Option.some.inj h
    exact hrows
  | cons l ls ih =>
    intro M M2 h hrows
    rw [List.foldlM_cons] at h
    cases hstep : extract_step V parse M l with
    | none =>
      rw [hstep] at h
      exact absurd h (by simp)
    | some M1 =>
      rw [hstep, show (some M1 >>= fun M3 => ls.foldlM (extract_step V parse) M3) =
        ls.foldlM (extract_step V parse) M1 from rfl] at h
      exact ih M1 M2 h (extract_step_rows hstep hrows)

theorem extract_foldlM_untouched {F : Type} (V : List (Token × Nat)) (parse : Token → F)
    (lines : List Token) (idx : Nat) :
    ∀ M M2 : List (List F), lines.foldlM (extract_step V parse) M = some M2 →
      (∀ line ∈ lines, alookup V (firstField line) ≠ some idx) →
      M2.get? idx = M.get? idx := by
  induction lines with
  | nil =>
    intro M M2 h _
    obtain rfl := Option.some.inj h
    rfl
  | cons l ls ih =>
    intro M M2 h hno
    rw [List.foldlM_cons] at h
    cases hstep : extract_step V parse M l with
    | none =>
      rw [hstep] at h
      exact absurd h (by simp)
    | some M1 =>
      rw [hstep, show (some M1 >>= fun M3 => ls.foldlM (extract_step V parse) M3) =
        ls.foldlM (extract_step V parse) M1 from rfl] at h
      have h1 : M1.get? idx = M.get? idx := by
        unfold extract_step at hstep
        split at hstep
        · obtain rfl := Option.some.inj hstep
          rfl
        · rename_i idx2 hlook
          split at hstep
          · obtain rfl := Option.some.inj hstep
            have hne : idx2 ≠ idx := by
              intro he
              exact hno l (List.mem_cons_self l ls) (he ▸ hlook)
            simp [List.getElem?_set_ne hne]
          · exact absurd hstep (by simp)
      rw [ih M1 M2 h (fun l2 hl2 => hno l2 (List.mem_cons_of_mem _ hl2)), h1]

theorem extract_foldlM_last {F : Type} (V : List (Token × Nat)) (parse : Token → F)
    (l1 : List Token) (line : Token) (l2 : List Token) (idx : Nat)
    (M M2 : List (List F))
    (h : (l1 ++ line :: l2).foldlM (extract_step V parse) M = some M2)
    (hlook : alookup V (firstField line) = some idx)
    (hafter : ∀ line2 ∈ l2, alookup V (firstField line2) ≠ some idx) :
    M2.get? idx = some (embOf parse line) := by
  rw [List.foldlM_append] at h
  cases hm1 : l1.foldlM (extract_step V parse) M with
  | none =>
    rw [hm1] at h
    exact absurd h (by simp)
  | some M1 =>
    rw [hm1, show (some M1 >>= fun M3 => (line :: l2).foldlM (extract_step V parse) M3) =
      (line :: l2).foldlM (extract_step V parse) M1 from rfl] at h
    rw [List.foldlM_cons] at h
    cases hstep : extract_step V parse M1 line with
    | none =>
      rw [hstep] at h
      exact absurd h (by simp)
    | some Mmid =>
      rw [hstep, show (some Mmid >>= fun M3 => l2.foldlM (extract_step V parse) M3) =
        l2.foldlM (extract_step V parse) Mmid from rfl] at h
      have hmid : Mmid.get? idx = some (embOf parse line) := by
        unfold extract_step at hstep
        rw [hlook] at hstep
        split at hstep
        · rename_i hcond
          exact absurd hcond (by simp)
        · rename_i idx2 hcond
          obtain rfl : idx = idx2 := Option.some.inj hcond
          split at hstep
          · rename_i hcond2
            obtain rfl := Option.some.inj hstep
            simp [List.getElem?_set_self, hcond2.2]
          · exact absurd hstep (by simp)
      rw [extract_foldlM_untouched V parse l2 idx Mmid M2 h hafter, hmid]

theorem initEmb_length {F : Type} (initF : Nat → Nat → F) (n : Nat) :
    (initEmb initF n).length = n := by
  simp [initEmb]

theorem initEmb_rows {F : Type} (initF : Nat → Nat → F) (n : Nat) :
    ∀ row ∈ initEmb initF n, row.length = 300 := by
  intro row hrow
  obtain ⟨i, _, rfl⟩ := List.mem_map.mp hrow
  simp

theorem initEmb_get? {F : Type} (initF : Nat → Nat → F) (n idx : Nat) :
    idx < n → (initEmb initF n).get? idx = some ((List.range 300).map (initF idx)) := by
  intro h
  have hlen : idx < (initEmb initF n).length := by
    rw [initEmb_length]
    exact h
  rw [List.get?_eq_get hlen]
  simp [initEmb]

theorem alookup_inj {V : List (Token × Nat)} (hv : (V.map Prod.snd).Nodup)
    {w w2 : Token} {i : Nat} (h1 : alookup V w = some i)
    (h2 : alookup V w2 = some i) : w = w2 := by
  have hm1 := alookup_mem h1
  have hm2 := alookup_mem h2
  have he : ((w, i) : Token × Nat) = (w2, i) :=
    List.inj_on_of_nodup_map hv hm1 hm2 rfl
  exact (Prod.mk.injEq .. ▸ he).1

/-- Claim C5: the extracted embedding matrix is aligned to the vocabulary: it
has exactly `len(word_to_id)` rows of `emb_dim = 300` columns; the row of a
vocabulary word whose entry appears in the pretrained file equals the first
300 parsed components of that word's (last) entry line; and the row of a
vocabulary word appearing in no line keeps its random initialization.  Float
parsing and the random draws are abstracted as `parse` and `initF`;
distinctness of the vocabulary ids holds for the built vocabulary. -/
theorem claim5_embedding_alignment {F : Type} (parse : Token → F)
    (initF : Nat → Nat → F) (word_to_id : List (Token × Nat)) (lines : List Token)
    (M : List (List F)) (hvals : (word_to_id.map Prod.snd).Nodup)
    (h : extract_embeddings word_to_id parse initF lines = some M) :
    M.length = word_to_id.length ∧
    (∀ row ∈ M, row.length = 300) ∧
    (∀ (w : Token) (idx : Nat), alookup word_to_id w = some idx →
      (∀ line ∈ lines, firstField line ≠ w) →
      M.get? idx = (initEmb initF word_to_id.length).get? idx) ∧
    (∀ (w : Token) (idx : Nat) (l1 : List Token) (line : Token) (l2 : List Token),
      alookup word_to_id w = some idx → lines = l1 ++ line :: l2 →
      firstField line = w → (∀ line2 ∈ l2, firstField line2 ≠ w) →
      M.get? idx = some (embOf parse line)) := by
  unfold extract_embeddings at h
  refine ⟨?_, ?_, ?_, ?_⟩
  · rw [extract_foldlM_length word_to_id parse lines _ _ h, initEmb_length]
  · exact extract_foldlM_rows word_to_id parse lines _ _ h
      (initEmb_rows initF word_to_id.length)
  · intro w idx hw hno
    refine extract_foldlM_untouched word_to_id parse lines idx _ _ h ?_
    intro line hline he
    exact hno line hline (alookup_inj hvals he hw)
  · intro w idx l1 line l2 hw hsplit hfirst hafter
    subst hsplit
    refine extract_foldlM_last word_to_id parse l1 line l2 idx _ _ h
      (by rw [hfirst]; exact hw) ?_
    intro line2 hline2 he
    exact hafter line2 hline2 (alookup_inj hvals he hw)

/-- Witness for C5: a one-word vocabulary and a two-line pretrained file in
which the word appears on the first line; parsing is instantiated with the
field length. -/
theorem claim5_witness :
    (([(("a".toList : Token), 0)] : List (Token × Nat)).map Prod.snd).Nodup ∧
    extract_embeddings [(("a".toList : Token), 0)]
        (fun t => t.length) (fun _ _ => 0) [] =
      some (initEmb (fun _ _ => 0) 1) ∧
    (initEmb (fun (_ _ : Nat) => (0 : Nat)) 1).length = 1 := by
  have h : extract_embeddings [(("a".toList : Token), 0)]
      (fun t => t.length) (fun _ _ => (0 : Nat)) [] =
        some (initEmb (fun _ _ => 0) 1) := rfl
  have hmain := claim5_embedding_alignment (fun t => t.length) (fun _ _ => (0 : Nat))
    [(("a".toList : Token), 0)] [] (initEmb (fun _ _ => 0) 1) (by decide) h
  exact ⟨by decide, h, hmain.1⟩

end Rsaton
